import Mathlib

/-!
Verification of the RAMCloud HomaTransport core and the ServerList
membership code, as a shallow embedding in Lean 4.

Sources embedded:
* src/src/HomaTransport.h — RpcId, packet wire formats, OutgoingMessage and
  its constructor, MessageAccumulator/ScheduledMessage declarations and the
  transport configuration fields.
* src/src/ServerList.cc — applyServerList / applyFullList / applyUpdate /
  add / crashed / remove.

The bodies of the HomaTransport operations (addPacket, the grant scheduler,
the transmit engine, GRANT/RESEND handling) live in HomaTransport.cc, which
is not part of the source tree given here; those operations are modelled
from the specification (spec.md) and are marked "Modelled from the spec"
in their doc comments.

Machine integers (uint32_t / uint64_t) are modelled as Nat: the embedded
operations only compare, take minima of, and add small bounded quantities,
and the source relies on the same no-overflow assumptions.
-/

namespace RAMCloud

/-! ### RpcId (HomaTransport.h lines 79-120) -/

/-- A unique identifier for an RPC: (clientId, sequence), both uint64_t. -/
structure RpcId where
  clientId : Nat
  sequence : Nat
deriving DecidableEq, Repr

/-- `RpcId::operator<` (HomaTransport.h lines 93-98). -/
def RpcId.lt (a other : RpcId) : Bool :=
  decide (a.clientId < other.clientId)
    || (decide (a.clientId = other.clientId)
    && decide (a.sequence < other.sequence))

/-- `RpcId::operator==` (HomaTransport.h lines 103-107). -/
def RpcId.eqb (a other : RpcId) : Bool :=
  decide (a.clientId = other.clientId) && decide (a.sequence = other.sequence)

/-! ### Packet wire formats (HomaTransport.h lines 492-670) -/

/-- `PacketOpcode` values (HomaTransport.h lines 492-504). -/
def ALL_DATA : Nat := 20
def DATA : Nat := 21
def GRANT : Nat := 22
def LOG_TIME_TRACE : Nat := 23
def RESEND : Nat := 24
def BUSY : Nat := 25
def ABORT : Nat := 26
def BOGUS : Nat := 27

/-- CommonHeader flag bits (HomaTransport.h lines 534-537). -/
def FROM_CLIENT : Nat := 1
def FROM_SERVER : Nat := 0
def RETRANSMISSION : Nat := 2
def RESTART : Nat := 4

/-- Header fields common to all packet types (HomaTransport.h lines 510-517). -/
structure CommonHeader where
  opcode : Nat
  rpcId : RpcId
  flags : Nat
deriving DecidableEq, Repr

/-- `CommonHeader` constructor (HomaTransport.h lines 515-516). -/
def CommonHeader.construct (opcode : Nat) (rpcId : RpcId) (flags : Nat) :
    CommonHeader :=
  { opcode := opcode, rpcId := rpcId, flags := flags }

/-- Wire format of a GRANT packet (HomaTransport.h lines 587-603). -/
structure GrantHeader where
  common : CommonHeader
  offset : Nat
  priority : Nat
deriving DecidableEq, Repr

/-- `GrantHeader` constructor (HomaTransport.h lines 597-602). -/
def GrantHeader.construct (rpcId : RpcId) (offset : Nat) (priority : Nat)
    (flags : Nat) : GrantHeader :=
  { common := CommonHeader.construct GRANT rpcId flags
    offset := offset
    priority := priority }

/-- Wire format of an ABORT packet (HomaTransport.h lines 665-670). -/
structure AbortHeader where
  common : CommonHeader
deriving DecidableEq, Repr

/-- `AbortHeader` constructor (HomaTransport.h lines 668-669): the flags
field is hard-wired to FROM_CLIENT. -/
def AbortHeader.construct (rpcId : RpcId) : AbortHeader :=
  { common := CommonHeader.construct ABORT rpcId FROM_CLIENT }

/-! ### OutgoingMessage (HomaTransport.h lines 290-353) -/

/-- The configuration fields of HomaTransport read by the operations
embedded here (HomaTransport.h lines 740, 858-870, 929). -/
structure TransportConfig where
  maxDataPerPacket : Nat
  roundTripBytes : Nat
  grantIncrement : Nat
deriving DecidableEq, Repr

/-- An outgoing message: the request of a ClientRpc or the response of a
ServerRpc (HomaTransport.h lines 290-353). `bufferSize` stands for
`buffer->size()`, the total length of the message; `recipient` is an
abstract driver address. -/
structure OutgoingMessage where
  bufferSize : Nat
  recipient : Nat
  transmitOffset : Nat
  transmitPriority : Nat
  transmitLimit : Nat
  topChoice : Bool
  lastTransmitTime : Nat
  unscheduledBytes : Nat
deriving DecidableEq, Repr

/-- `OutgoingMessage::OutgoingMessage` (HomaTransport.h lines 333-347):
transmitOffset := 0, transmitLimit value-initialized to 0,
unscheduledBytes := t->roundTripBytes. -/
def OutgoingMessage.construct (t : TransportConfig) (bufferSize : Nat)
    (recipient : Nat) : OutgoingMessage :=
  { bufferSize := bufferSize
    recipient := recipient
    transmitOffset := 0
    transmitPriority := 0
    transmitLimit := 0
    topChoice := false
    lastTransmitTime := 0
    unscheduledBytes := t.roundTripBytes }

/-! ### Sender-side transmit operations.

The bodies of these operations live in HomaTransport.cc, which is not part
of the source tree given here (only their declarations and the data they
act on are, in HomaTransport.h); they are modelled from spec.md. -/

/-- Modelled from the spec: initialization of transmitLimit when the
transport starts transmitting a newly created message (sendRequest /
sendReply in the missing HomaTransport.cc). Spec §3: "transmitLimit starts
at min(unscheduledBytes, totalLength)". -/
def omStartTransmission (m : OutgoingMessage) : OutgoingMessage :=
  { m with transmitLimit := min m.unscheduledBytes m.bufferSize }

/-- The packet-handling and transmit events that act on an
OutgoingMessage. -/
inductive OMEvent where
  | grant (offset : Nat)
  | xmitData
  | restart
deriving DecidableEq, Repr

/-- Modelled from the spec: the packet-handling and transmit operations of
the missing HomaTransport.cc, as a step function.

* `grant o` — a GRANT packet carrying offset o arrives (spec §8:
  "Duplicate GRANT with offset ≤ current transmitLimit is a no-op";
  HomaTransport.h line 315: transmitLimit "Must be always smaller than or
  equal to the message size", hence the clamp to the message size).
* `xmitData` — the transmit engine emits one data packet (spec §4.3:
  choose a message with transmitOffset < transmitLimit, emit one packet,
  advance transmitOffset).
* `restart` — a RESEND packet with the RESTART flag arrives (spec §4.6:
  "the sender resets transmitOffset to 0, transmitLimit to
  unscheduledBytes, and resends from scratch", i.e. back to the start
  state, whose transmitLimit is min(unscheduledBytes, totalLength)). -/
def omStep (t : TransportConfig) (e : OMEvent) (m : OutgoingMessage) :
    OutgoingMessage :=
  match e with
  | .grant o =>
      if o ≤ m.transmitLimit then m
      else { m with transmitLimit := min o m.bufferSize }
  | .xmitData =>
      if m.transmitOffset < m.transmitLimit then
        { m with transmitOffset := min (m.transmitOffset + t.maxDataPerPacket) m.transmitLimit }
      else m
  | .restart =>
      { m with transmitOffset := 0,
               transmitLimit := min m.unscheduledBytes m.bufferSize }

/-- The transmit-pointer invariant of an OutgoingMessage:
transmitOffset ≤ transmitLimit ≤ message size. -/
def omInv (m : OutgoingMessage) : Prop :=
  m.transmitOffset ≤ m.transmitLimit ∧ m.transmitLimit ≤ m.bufferSize

instance (m : OutgoingMessage) : Decidable (omInv m) := by
  unfold omInv; infer_instance

/-! ### Receiver-side grant bookkeeping for one inbound message -/

/-- The grant-relevant state of a ScheduledMessage (HomaTransport.h lines
234-237, 273): grantOffset is the offset of the most recent GRANT sent for
this inbound message. -/
structure InboundSchedState where
  grantOffset : Nat
  totalLength : Nat
deriving DecidableEq, Repr

/-- Modelled from the spec: grant emission for an active inbound message
(spec §4.4, missing from HomaTransport.cc in src):
newGrantOffset = min(totalLength, grantOffset + grantIncrement); a GRANT
packet carrying newGrantOffset is sent and grantOffset is updated to it.
Returns the offset carried by the emitted GRANT and the new state. -/
def emitGrant (t : TransportConfig) (m : InboundSchedState) :
    Nat × InboundSchedState :=
  let newGrantOffset := min m.totalLength (m.grantOffset + t.grantIncrement)
  (newGrantOffset, { m with grantOffset := newGrantOffset })

/-! ### MessageAccumulator (HomaTransport.h lines 161-209)

The accumulator reassembles one inbound multi-packet message. `buffer`
holds the received prefix of the message as bytes; `fragments` models the
FragmentMap (HomaTransport.h lines 196-202): an offset-keyed map from the
message offset of a stored DATA packet to its payload (standing for the
stolen `(DataHeader*, length)` pair). -/

structure Accumulator where
  buffer : List Nat
  fragments : List (Nat × List Nat)
deriving DecidableEq, Repr

/-- A fresh accumulator, before any packet has been absorbed. -/
def emptyAccumulator : Accumulator :=
  { buffer := [], fragments := [] }

/-- `fragments.find(offset)` on the FragmentMap. -/
def findFrag (offset : Nat) : List (Nat × List Nat) → Option (List Nat)
  | [] => none
  | e :: rest => if e.1 = offset then some e.2 else findFrag offset rest

/-- `fragments.erase(offset)` on the FragmentMap (keys are unique, so
erasing the first entry with the key erases the only one). -/
def removeFrag (offset : Nat) : List (Nat × List Nat) → List (Nat × List Nat)
  | [] => []
  | e :: rest => if e.1 = offset then rest else e :: removeFrag offset rest

/-- Modelled from the spec: the coalescing loop of addPacket (spec §4.2:
"then, while fragments contains key == buffer.size(), pop and append").
`fuel` bounds the iteration count; addPacket passes the number of stored
fragments, which the loop never needs to exceed since every iteration
removes one entry. -/
def coalesceAux : Nat → List Nat → List (Nat × List Nat) → List Nat × List (Nat × List Nat)
  | 0, buf, frags => (buf, frags)
  | fuel + 1, buf, frags =>
      match findFrag buf.length frags with
      | none => (buf, frags)
      | some payload => coalesceAux fuel (buf ++ payload) (removeFrag buf.length frags)

/-- Modelled from the spec: `MessageAccumulator::addPacket` (declared at
HomaTransport.h line 166, body in the missing HomaTransport.cc). Spec §4.2,
with off the packet's message offset:
* off < buffer.size(): duplicate, release to the driver (modelled as: the
  accumulator does not retain the packet — the state is unchanged);
* off == buffer.size(): append the payload to buffer, then coalesce
  stored fragments forward;
* off > buffer.size(): if the key is already present the packet is a
  duplicate and is dropped, else the fragment is stored. -/
def addPacket (offset : Nat) (payload : List Nat) (a : Accumulator) : Accumulator :=
  if offset < a.buffer.length then a
  else if offset = a.buffer.length then
    let r := coalesceAux a.fragments.length (a.buffer ++ payload) a.fragments
    { buffer := r.1, fragments := r.2 }
  else if (findFrag offset a.fragments).isSome then a
  else { a with fragments := (offset, payload) :: a.fragments }

/-- The payload that a conforming sender puts in the DATA packet at
`offset` of message `msg`, with `maxData` bytes of message data per packet
(spec §4.3: the sender chunks the message into packets of maxDataPerPacket
bytes, the last one possibly shorter). -/
def chunk (msg : List Nat) (maxData offset : Nat) : List Nat :=
  (msg.drop offset).take maxData

/-- A DATA packet of message `msg` as a conforming sender transmits it:
its offset is a packet boundary inside the message and its payload is the
message data at that offset. -/
def conformingPacket (msg : List Nat) (maxData offset : Nat)
    (payload : List Nat) : Prop :=
  maxData ∣ offset ∧ offset < msg.length ∧ payload = chunk msg maxData offset

instance (msg : List Nat) (maxData offset : Nat) (payload : List Nat) :
    Decidable (conformingPacket msg maxData offset payload) := by
  unfold conformingPacket; infer_instance

/-- The reassembly invariant of a MessageAccumulator for message `msg`
chunked at `maxData` bytes per packet: the buffer is exactly the received
prefix of the message and is packet-aligned (or complete), and every
stored fragment is a packet-aligned chunk of the message lying strictly
beyond the buffer, with pairwise-distinct keys. -/
def accInv (msg : List Nat) (maxData : Nat) (a : Accumulator) : Prop :=
  a.buffer = msg.take a.buffer.length
  ∧ a.buffer.length ≤ msg.length
  ∧ (maxData ∣ a.buffer.length ∨ a.buffer.length = msg.length)
  ∧ (∀ e ∈ a.fragments, a.buffer.length < e.1 ∧ maxData ∣ e.1
      ∧ e.1 < msg.length ∧ e.2 = chunk msg maxData e.1)
  ∧ (a.fragments.map Prod.fst).Nodup

instance (msg : List Nat) (maxData : Nat) (a : Accumulator) :
    Decidable (accInv msg maxData a) := by
  unfold accInv; infer_instance

/-- Two stored fragments overlap when neither ends at or before the start
of the other. -/
def fragmentsDisjoint (frags : List (Nat × List Nat)) : Prop :=
  frags.Pairwise (fun e1 e2 =>
    e1.1 + e1.2.length ≤ e2.1 ∨ e2.1 + e2.2.length ≤ e1.1)

instance (frags : List (Nat × List Nat)) : Decidable (fragmentsDisjoint frags) := by
  unfold fragmentsDisjoint; infer_instance

/-! ### The receiver scheduler (grant engine) -/

/-- The scheduling-relevant state of a ScheduledMessage (HomaTransport.h
lines 217-282): the hash of its sender's address, the number of bytes still
to be received, and the RpcId used as tie-break. -/
structure ScheduledMessage where
  senderHash : Nat
  bytesRemaining : Nat
  rpcId : RpcId
deriving DecidableEq, Repr

/-- Modelled from the spec: `ScheduledMessage::compareTo` (declared at
HomaTransport.h line 223, body in the missing HomaTransport.cc). Spec §4.4:
"compareTo orders primarily by smaller bytesRemaining, breaking ties by
(rpcId) for determinism". True when a precedes b. -/
def smBefore (a b : ScheduledMessage) : Bool :=
  decide (a.bytesRemaining < b.bytesRemaining)
    || (decide (a.bytesRemaining = b.bytesRemaining) && RpcId.lt a.rpcId b.rpcId)

/-- The grant-engine queues of the transport (HomaTransport.h lines
904-929): the active list (kept sorted by compareTo), the inactive list,
and the overcommitment degree D = maxGrantedMessages. -/
structure SchedulerState where
  activeMessages : List ScheduledMessage
  inactiveMessages : List ScheduledMessage
  maxGrantedMessages : Nat
deriving DecidableEq, Repr

/-- Insertion into the sorted active list at the position given by
compareTo (spec §4.4: "insert m into activeMessages in sorted position"). -/
def insertActive (m : ScheduledMessage) : List ScheduledMessage → List ScheduledMessage
  | [] => [m]
  | x :: xs => if smBefore m x then m :: x :: xs else x :: insertActive m xs

/-- Removal of the first occurrence of a message from a list (unlinking
from an intrusive list). -/
def removeFirst (x : ScheduledMessage) : List ScheduledMessage → List ScheduledMessage
  | [] => []
  | y :: ys => if y = x then ys else y :: removeFirst x ys

/-- Modelled from the spec: `HomaTransport::replaceActiveMessage` (declared
at HomaTransport.h lines 719-720, body in the missing HomaTransport.cc).
Spec §4.4: the departing message leaves activeMessages and the chosen
replacement (taken out of inactiveMessages) is inserted in sorted
position. -/
def replaceActiveMessage (oldMessage newMessage : ScheduledMessage)
    (s : SchedulerState) : SchedulerState :=
  { s with activeMessages := insertActive newMessage (removeFirst oldMessage s.activeMessages),
           inactiveMessages := removeFirst newMessage s.inactiveMessages }

/-- Modelled from the spec: `HomaTransport::tryToSchedule` (declared at
HomaTransport.h line 717, body in the missing HomaTransport.cc). Spec §4.4
steps a-d for a message m in state NEW:
a. if an active message has the same senderHash: if that sibling is better
   by compareTo, m goes to inactiveMessages, else m replaces the sibling
   (which goes to inactiveMessages);
b. else if |activeMessages| < D, insert m in sorted position;
c. else if m is better than the worst active message, evict that one to
   inactiveMessages and insert m;
d. else m goes to inactiveMessages. -/
def tryToSchedule (m : ScheduledMessage) (s : SchedulerState) : SchedulerState :=
  match s.activeMessages.find? (fun x => decide (x.senderHash = m.senderHash)) with
  | some sibling =>
      if smBefore sibling m then
        { s with inactiveMessages := m :: s.inactiveMessages }
      else
        { s with activeMessages := insertActive m (removeFirst sibling s.activeMessages),
                 inactiveMessages := sibling :: s.inactiveMessages }
  | none =>
      if s.activeMessages.length < s.maxGrantedMessages then
        { s with activeMessages := insertActive m s.activeMessages }
      else
        match s.activeMessages.getLast? with
        | some worst =>
            if smBefore m worst then
              { s with activeMessages := insertActive m (removeFirst worst s.activeMessages),
                       inactiveMessages := worst :: s.inactiveMessages }
            else
              { s with inactiveMessages := m :: s.inactiveMessages }
        | none => { s with inactiveMessages := m :: s.inactiveMessages }

/-! ### ServerList (ServerList.cc)

The membership code of ServerList.cc, embedded as a state-transition
function. `assert()` calls are modelled as no-ops (as in an NDEBUG build);
`DIE()` in applyServerList is modelled by returning `none`. A ServerId is
modelled abstractly by its two components (indexNumber, generationNumber);
a tracker is modelled by its queue of enqueued change events and the number
of fireCallback invocations it has received. -/

inductive ServerStatus where
  | up
  | crashed
  | down
deriving DecidableEq, Repr

inductive ServerChangeEvent where
  | serverAdded
  | serverCrashed
  | serverRemoved
deriving DecidableEq, Repr

structure ServerId where
  indexNumber : Nat
  generationNumber : Nat
deriving DecidableEq, Repr

structure ServerDetails where
  serverId : ServerId
  serviceLocator : String
  services : Nat
  expectedReadMBytesPerSec : Nat
  status : ServerStatus
deriving DecidableEq, Repr

structure TrackerState where
  events : List (ServerDetails × ServerChangeEvent)
  fires : Nat
deriving DecidableEq, Repr

structure ServerListState where
  serverList : List (Option ServerDetails)
  version : Nat
  trackers : List TrackerState
deriving DecidableEq, Repr

/-- `tracker->enqueueChange(details, event)` on every registered tracker. -/
def enqueueChange (details : ServerDetails) (event : ServerChangeEvent)
    (st : ServerListState) : ServerListState :=
  { st with trackers := st.trackers.map (fun tr => { tr with events := tr.events ++ [(details, event)] }) }

/-- `tracker->fireCallback()` on every registered tracker. -/
def fireAllTrackers (st : ServerListState) : ServerListState :=
  { st with trackers := st.trackers.map (fun tr => { tr with fires := tr.fires + 1 }) }

/-- The slot of the serverList vector at `index` (empty Tub and
out-of-range both read as none). -/
def slot (st : ServerListState) (index : Nat) : Option ServerDetails :=
  (st.serverList.getD index none)

/-- `ServerList::iget(ServerId)` (ServerList.cc lines 50-60). -/
def iget (st : ServerListState) (id : ServerId) : Option ServerDetails :=
  match slot st id.indexNumber with
  | some details => if details.serverId = id then some details else none
  | none => none

/-- `serverList.resize(index + 1)` when index is out of range
(ServerList.cc lines 344-345). -/
def resizeFor (index : Nat) (st : ServerListState) : ServerListState :=
  if index ≥ st.serverList.length then
    { st with serverList :=
        st.serverList ++ List.replicate (index + 1 - st.serverList.length) none }
  else st

/-- Writing a slot of the serverList vector. -/
def setSlot (index : Nat) (v : Option ServerDetails) (st : ServerListState) :
    ServerListState :=
  { st with serverList := st.serverList.set index v }

/-- The crash marking at the end of `ServerList::crashed` (ServerList.cc
lines 465-477): set the entry status to CRASHED and enqueue a
SERVER_CRASHED event carrying ServerDetails(serverId, CRASHED). -/
def markCrashed (index : Nat) (st : ServerListState) : Bool × ServerListState :=
  match slot st index with
  | some entry =>
      let st2 := setSlot index (some { entry with status := .crashed }) st
      (true, enqueueChange
        { serverId := entry.serverId, serviceLocator := "", services := 0,
          expectedReadMBytesPerSec := 0, status := .crashed }
        .serverCrashed st2)
  | none => (false, st)

mutual

/-- `ServerList::add` (ServerList.cc lines 329-384). The fuel argument
bounds the depth of the add/crashed/remove mutual recursion, which the
source bounds structurally (see the comment tables in ServerList.cc); the
callers pass more fuel than the recursion can consume. -/
def sl_add : Nat → ServerId → String → Nat → Nat → ServerListState →
    Bool × ServerListState
  | 0, _, _, _, _, st => (false, st)
  | fuel + 1, id, locator, services, mbps, st =>
      let st1 := resizeFor id.indexNumber st
      match slot st1 id.indexNumber with
      | some entry =>
          if id.generationNumber < entry.serverId.generationNumber then
            (false, st1)
          else if id.generationNumber > entry.serverId.generationNumber then
            let st2 := (sl_remove fuel entry.serverId st1).2
            let details : ServerDetails :=
              { serverId := id, serviceLocator := locator, services := services,
                expectedReadMBytesPerSec := mbps, status := .up }
            let st3 := setSlot id.indexNumber (some details) st2
            (true, enqueueChange details .serverAdded st3)
          else
            (false, st1)
      | none =>
          let details : ServerDetails :=
            { serverId := id, serviceLocator := locator, services := services,
              expectedReadMBytesPerSec := mbps, status := .up }
          let st2 := setSlot id.indexNumber (some details) st1
          (true, enqueueChange details .serverAdded st2)

/-- `ServerList::crashed` (ServerList.cc lines 414-478). -/
def sl_crashed : Nat → ServerId → String → Nat → Nat → ServerListState →
    Bool × ServerListState
  | 0, _, _, _, _, st => (false, st)
  | fuel + 1, id, locator, services, mbps, st =>
      let st1 := if slot st id.indexNumber = none then
          (sl_add fuel id locator services mbps st).2
        else st
      match slot st1 id.indexNumber with
      | some entry =>
          if id.generationNumber < entry.serverId.generationNumber then
            (false, st1)
          else if id.generationNumber > entry.serverId.generationNumber then
            let st2 := (sl_remove fuel entry.serverId st1).2
            let st3 := (sl_add fuel id locator services mbps st2).2
            markCrashed id.indexNumber st3
          else if entry.status = .crashed then
            (false, st1)
          else
            markCrashed id.indexNumber st1
      | none => (false, st1)

/-- `ServerList::remove` (ServerList.cc lines 492-547). -/
def sl_remove : Nat → ServerId → ServerListState → Bool × ServerListState
  | 0, _, st => (false, st)
  | fuel + 1, id, st =>
      match slot st id.indexNumber with
      | none => (false, st)
      | some entry =>
          if id.generationNumber < entry.serverId.generationNumber then
            (false, st)
          else
            let st1 := if entry.status = .up then
                (sl_crashed fuel entry.serverId entry.serviceLocator
                  entry.services entry.expectedReadMBytesPerSec st).2
              else st
            let details : ServerDetails :=
              { serverId := entry.serverId, serviceLocator := "", services := 0,
                expectedReadMBytesPerSec := 0, status := .down }
            let st2 := enqueueChange details .serverRemoved st1
            (true, setSlot id.indexNumber none st2)

end

/-- The coordinator's ProtoBuf::ServerList type tag (ServerList.cc lines
128-143): a list is either an incremental UPDATE or a FULL_LIST. -/
inductive CoordListType where
  | update
  | full_list
deriving DecidableEq, Repr

/-- One server entry of a coordinator list. -/
structure CoordEntry where
  server_id : ServerId
  service_locator : String
  services : Nat
  expected_read_mbytes_per_sec : Nat
  status : ServerStatus
deriving DecidableEq, Repr

/-- A coordinator server list (the ProtoBuf::ServerList fields read by
ServerList.cc). -/
structure CoordServerList where
  version_number : Nat
  type : CoordListType
  server : List CoordEntry
deriving DecidableEq, Repr

/-- `ServerList::applyFullList` (ServerList.cc lines 160-225): ignore DOWN
entries for the id set, remove absent servers, apply crashes, apply adds,
bump the version, fire the trackers. -/
def applyFullList (fuel : Nat) (list : CoordServerList)
    (st : ServerListState) : ServerListState :=
  let listIds : List ServerId :=
    (list.server.filter (fun s => decide (s.status ≠ .down))).map
      (fun s => s.server_id)
  let st1 := (List.range st.serverList.length).foldl
    (fun acc i =>
      match slot acc i with
      | none => acc
      | some entry =>
          if entry.serverId ∈ listIds then acc
          else (sl_remove fuel entry.serverId acc).2) st
  let st2 := list.server.foldl
    (fun acc s =>
      if s.status = .crashed then
        (sl_crashed fuel s.server_id s.service_locator s.services
          s.expected_read_mbytes_per_sec acc).2
      else acc) st1
  let st3 := list.server.foldl
    (fun acc s =>
      if s.status = .up then
        (sl_add fuel s.server_id s.service_locator s.services
          s.expected_read_mbytes_per_sec acc).2
      else acc) st2
  fireAllTrackers { st3 with version := list.version_number }

/-- The entry loop of `ServerList::applyUpdate` (ServerList.cc lines
258-298); `false` stands for the early `return false` paths, with the
mutations performed so far kept. -/
def applyUpdateLoop (fuel : Nat) : List CoordEntry → ServerListState →
    Bool × ServerListState
  | [], st => (true, st)
  | s :: rest, st =>
      match s.status with
      | .up => applyUpdateLoop fuel rest
          (sl_add fuel s.server_id s.service_locator s.services
            s.expected_read_mbytes_per_sec st).2
      | .crashed =>
          if iget st s.server_id = none then (false, st)
          else applyUpdateLoop fuel rest
            (sl_crashed fuel s.server_id s.service_locator s.services
              s.expected_read_mbytes_per_sec st).2
      | .down =>
          if iget st s.server_id = none then (false, st)
          else applyUpdateLoop fuel rest (sl_remove fuel s.server_id st).2

/-- `ServerList::applyUpdate` (ServerList.cc lines 239-306). -/
def applyUpdate (fuel : Nat) (update : CoordServerList)
    (st : ServerListState) : Bool × ServerListState :=
  if update.version_number ≠ st.version + 1 then (false, st)
  else
    match applyUpdateLoop fuel update.server st with
    | (false, st1) => (false, st1)
    | (true, st1) =>
        (true, fireAllTrackers { st1 with version := update.version_number })

/-- `ServerList::applyServerList` (ServerList.cc lines 107-144): stale or
repeated coordinator lists (version_number ≤ current version) are ignored;
otherwise the list is demultiplexed to applyUpdate or applyFullList. A
failed applyUpdate calls DIE(), modelled as `none`. -/
def applyServerList (fuel : Nat) (list : CoordServerList)
    (st : ServerListState) : Option ServerListState :=
  if list.version_number ≤ st.version then some st
  else
    match list.type with
    | .update =>
        match applyUpdate fuel list st with
        | (false, _) => none
        | (true, st1) => some st1
    | .full_list => some (applyFullList fuel list st)

/-! ### Concrete sample states, used by the closed witness theorems -/

/-- A sample transport configuration (spec §8, scenario 2). -/
def cfgA : TransportConfig :=
  { maxDataPerPacket := 1400, roundTripBytes := 10000, grantIncrement := 10000 }

/-- A sample in-flight outgoing message under `cfgA`. -/
def msgA : OutgoingMessage :=
  { bufferSize := 35000, recipient := 0, transmitOffset := 3000,
    transmitPriority := 0, transmitLimit := 10000, topChoice := false,
    lastTransmitTime := 0, unscheduledBytes := 10000 }

end RAMCloud

namespace RAMCloud

/-! ### Theorems about the source-embedded definitions -/

/-- C9: `RpcId::operator<` is the strict lexicographic order on
(clientId, sequence): irreflexive, transitive and trichotomous, and it is
consistent with `RpcId::operator==`: a == b holds iff neither a < b nor
b < a holds. -/
theorem rpcId_lt_strict_lex_order (a b c : RpcId) :
    RpcId.lt a a = false
    ∧ (RpcId.lt a b = true → RpcId.lt b c = true → RpcId.lt a c = true)
    ∧ (RpcId.lt a b = true ∨ RpcId.eqb a b = true ∨ RpcId.lt b a = true)
    ∧ (RpcId.eqb a b = true ↔ (RpcId.lt a b = false ∧ RpcId.lt b a = false)) := by
  simp only [RpcId.lt, RpcId.eqb, Bool.or_eq_true, Bool.and_eq_true,
    Bool.or_eq_false_iff, Bool.and_eq_false_iff, decide_eq_true_eq,
    decide_eq_false_iff_not]
  refine ⟨by omega, by omega, by omega, by omega⟩

/-- Closed instance of `rpcId_lt_strict_lex_order`: its transitivity
conjunct applied at concrete RpcIds. -/
theorem rpcId_lt_strict_lex_order_witness :
    RpcId.lt { clientId := 1, sequence := 9 } { clientId := 2, sequence := 0 } = true := by
  have h := rpcId_lt_strict_lex_order { clientId := 1, sequence := 9 }
    { clientId := 1, sequence := 20 } { clientId := 2, sequence := 0 }
  exact h.2.1 (by decide) (by decide)

/-- C7: constructing an AbortHeader for any RpcId sets flags to
FROM_CLIENT, so an ABORT packet on the wire is never marked FROM_SERVER. -/
theorem abortHeader_always_from_client (rpcId : RpcId) :
    (AbortHeader.construct rpcId).common.flags = FROM_CLIENT
    ∧ (AbortHeader.construct rpcId).common.flags ≠ FROM_SERVER
    ∧ (AbortHeader.construct rpcId).common.opcode = ABORT := by
  refine ⟨rfl, ?_, rfl⟩
  simp [AbortHeader.construct, CommonHeader.construct, FROM_CLIENT, FROM_SERVER]

/-- C8: the OutgoingMessage constructor initializes unscheduledBytes to the
transport's configured roundTripBytes, whatever the message length and the
recipient are. -/
theorem outgoingMessage_unscheduledBytes_is_roundTripBytes
    (t : TransportConfig) (bufferSize recipient : Nat) :
    (OutgoingMessage.construct t bufferSize recipient).unscheduledBytes
      = t.roundTripBytes := rfl

/-- C1: transmitOffset ≤ transmitLimit ≤ message size for every
OutgoingMessage: the constructor establishes the invariant, it still holds
when transmission starts, and every packet-handling and transmit operation
preserves it. -/
theorem outgoingMessage_transmit_invariant (t : TransportConfig)
    (bufferSize recipient : Nat) (e : OMEvent) (m : OutgoingMessage) :
    omInv (OutgoingMessage.construct t bufferSize recipient)
    ∧ omInv (omStartTransmission (OutgoingMessage.construct t bufferSize recipient))
    ∧ (omInv m → omInv (omStep t e m)) := by
  refine ⟨⟨Nat.le_refl 0, Nat.zero_le _⟩, ⟨Nat.zero_le _, Nat.min_le_right _ _⟩, ?_⟩
  rintro ⟨h1, h2⟩
  cases e with
  | grant o =>
      by_cases ho : o ≤ m.transmitLimit
      · simpa [omStep, ho] using ⟨h1, h2⟩
      · refine ⟨?_, ?_⟩ <;> (simp [omStep, ho, omInv]; try omega)
  | xmitData =>
      by_cases hr : m.transmitOffset < m.transmitLimit
      · refine ⟨?_, ?_⟩ <;> (simp [omStep, hr, omInv]; try omega)
      · simpa [omStep, hr] using ⟨h1, h2⟩
  | restart =>
      refine ⟨?_, ?_⟩ <;> simp [omStep, omInv]

/-- Closed instance of `outgoingMessage_transmit_invariant`: its
preservation conjunct applied to a concrete message and GRANT event. -/
theorem outgoingMessage_transmit_invariant_witness :
    omInv (omStep cfgA (.grant 20000) msgA) := by
  have h := outgoingMessage_transmit_invariant cfgA 35000 0 (.grant 20000) msgA
  exact h.2.2 (by decide)

/-- C2: for a message created by the transport, transmitLimit starts at
min(unscheduledBytes, totalLength) once transmission is initialized, and
thereafter only GRANT packets advance it: the transmit operation leaves it
unchanged and a RESTART never increases it (for any state whose
transmitLimit is at least the initial allowance, which holds from the start
state on since no event lowers transmitLimit below it). -/
theorem transmitLimit_initial_value_and_grant_only_advance
    (t : TransportConfig) (bufferSize recipient : Nat) (m : OutgoingMessage)
    (h : min m.unscheduledBytes m.bufferSize ≤ m.transmitLimit) :
    (omStartTransmission (OutgoingMessage.construct t bufferSize recipient)).transmitLimit
      = min (OutgoingMessage.construct t bufferSize recipient).unscheduledBytes
          bufferSize
    ∧ (omStep t .xmitData m).transmitLimit = m.transmitLimit
    ∧ (omStep t .restart m).transmitLimit ≤ m.transmitLimit := by
  refine ⟨rfl, ?_, ?_⟩
  · by_cases hr : m.transmitOffset < m.transmitLimit <;> simp [omStep, hr]
  · simpa [omStep] using h

/-- Closed instance of `transmitLimit_initial_value_and_grant_only_advance`
at a concrete message. -/
theorem transmitLimit_initial_value_and_grant_only_advance_witness :
    (omStep cfgA .xmitData msgA).transmitLimit = 10000 := by
  have h := transmitLimit_initial_value_and_grant_only_advance
    cfgA 35000 0 msgA (by decide)
  exact h.2.1

/-- C6: GRANT offsets for one inbound message are strictly monotone on the
wire: each grant emission for a not-yet-fully-granted message carries an
offset strictly greater than the previous grant offset and records it, so
successive emitted offsets strictly increase; and a sender that receives a
GRANT whose offset does not exceed its transmitLimit ignores it as a
duplicate. -/
theorem grant_offsets_strictly_monotone (t : TransportConfig)
    (m : InboundSchedState) (sender : OutgoingMessage) (o : Nat)
    (hActive : m.grantOffset < m.totalLength) (hInc : 0 < t.grantIncrement)
    (hDup : o ≤ sender.transmitLimit) :
    m.grantOffset < (emitGrant t m).1
    ∧ (emitGrant t m).2.grantOffset = (emitGrant t m).1
    ∧ (emitGrant t m).1 ≤ m.totalLength
    ∧ omStep t (.grant o) sender = sender := by
  refine ⟨?_, rfl, ?_, ?_⟩
  · simp only [emitGrant]
    omega
  · simp only [emitGrant]
    exact Nat.min_le_left _ _
  · simp [omStep, hDup]

/-- Closed instance of `grant_offsets_strictly_monotone` at a concrete
inbound message and sender state. -/
theorem grant_offsets_strictly_monotone_witness :
    (10000 : Nat) <
      (emitGrant cfgA { grantOffset := 10000, totalLength := 35000 }).1 := by
  have h := grant_offsets_strictly_monotone cfgA
    { grantOffset := 10000, totalLength := 35000 } msgA
    5000 (by decide) (by decide) (by decide)
  exact h.1

/-- Sorted insertion grows a list by exactly one element. -/
theorem length_insertActive (m : ScheduledMessage) (l : List ScheduledMessage) :
    (insertActive m l).length = l.length + 1 := by
  induction l with
  | nil => rfl
  | cons x xs ih =>
      unfold insertActive
      split
      · rfl
      · simpa using ih

/-- Removing a present element shrinks a list by exactly one element. -/
theorem length_removeFirst_of_mem (x : ScheduledMessage)
    (l : List ScheduledMessage) (h : x ∈ l) :
    (removeFirst x l).length + 1 = l.length := by
  induction l with
  | nil => cases h
  | cons y ys ih =>
      unfold removeFirst
      split
      · rfl
      · rename_i hne
        have hx : x ∈ ys := by
          cases List.mem_cons.mp h with
          | inl hxy => exact absurd hxy.symm hne
          | inr hmem => exact hmem
        simpa using ih hx

/-- The last element of a list is a member of it. -/
theorem mem_of_getLast?_eq_some {l : List ScheduledMessage}
    {a : ScheduledMessage} (h : l.getLast? = some a) : a ∈ l := by
  have h1 : a ∈ l.getLast? := Option.mem_def.mpr h
  obtain ⟨hne, heq⟩ := List.mem_getLast?_eq_getLast h1
  exact heq ▸ List.getLast_mem hne

/-- C3: the number of messages linked in activeMessages never exceeds
maxGrantedMessages (the overcommitment degree D): both operations that
insert into activeMessages — tryToSchedule of a new message and
replaceActiveMessage of a departing active message — preserve the bound
(and neither changes D itself). -/
theorem activeMessages_bounded_by_overcommitment
    (m oldMessage newMessage : ScheduledMessage) (s : SchedulerState)
    (hbound : s.activeMessages.length ≤ s.maxGrantedMessages)
    (hold : oldMessage ∈ s.activeMessages) :
    (tryToSchedule m s).activeMessages.length ≤ s.maxGrantedMessages
    ∧ (replaceActiveMessage oldMessage newMessage s).activeMessages.length
        ≤ s.maxGrantedMessages
    ∧ (tryToSchedule m s).maxGrantedMessages = s.maxGrantedMessages
    ∧ (replaceActiveMessage oldMessage newMessage s).maxGrantedMessages
        = s.maxGrantedMessages := by
  refine ⟨?_, ?_, ?_, ?_⟩
  · unfold tryToSchedule
    cases hfind : s.activeMessages.find? (fun x => decide (x.senderHash = m.senderHash)) with
    | some sibling =>
        have hsib : sibling ∈ s.activeMessages := List.mem_of_find?_eq_some hfind
        have hrem := length_removeFirst_of_mem sibling s.activeMessages hsib
        by_cases hb : smBefore sibling m = true
        · simpa [hb] using hbound
        · simp only [hb, Bool.false_eq_true, if_false]
          simp only [length_insertActive]
          omega
    | none =>
        by_cases hlen : s.activeMessages.length < s.maxGrantedMessages
        · simp only [hlen, if_true]
          simp only [length_insertActive]
          omega
        · simp only [hlen, if_false]
          cases hlast : s.activeMessages.getLast? with
          | some worst =>
              have hw : worst ∈ s.activeMessages := mem_of_getLast?_eq_some hlast
              have hrem := length_removeFirst_of_mem worst s.activeMessages hw
              by_cases hb : smBefore m worst = true
              · simp only [hb, if_true]
                simp only [length_insertActive]
                omega
              · simpa [hb] using hbound
          | none => simpa using hbound
  · unfold replaceActiveMessage
    have hrem := length_removeFirst_of_mem oldMessage s.activeMessages hold
    simp only [length_insertActive]
    omega
  · unfold tryToSchedule
    split
    · split
      · rfl
      · rfl
    · split
      · rfl
      · split
        · split
          · rfl
          · rfl
        · rfl
  · rfl

/-- findFrag misses exactly when no stored fragment has the key. -/
theorem findFrag_eq_none_iff (offset : Nat) (frags : List (Nat × List Nat)) :
    findFrag offset frags = none ↔ ∀ e ∈ frags, e.1 ≠ offset := by
  induction frags with
  | nil => simp [findFrag]
  | cons e rest ih =>
      unfold findFrag
      by_cases he : e.1 = offset
      · simp [he]
      · simp [he, ih]

/-- A findFrag hit names a stored fragment. -/
theorem mem_of_findFrag_eq_some {offset : Nat} {frags : List (Nat × List Nat)}
    {payload : List Nat} (h : findFrag offset frags = some payload) :
    (offset, payload) ∈ frags := by
  induction frags with
  | nil => simp [findFrag] at h
  | cons e rest ih =>
      unfold findFrag at h
      by_cases he : e.1 = offset
      · rw [if_pos he] at h
        have h2 : e.2 = payload := Option.some.inj h
        have heq : e = (offset, payload) := by
          rw [← he, ← h2]
        exact List.mem_cons.mpr (Or.inl heq.symm)
      · rw [if_neg he] at h
        exact List.mem_cons_of_mem _ (ih h)

/-- Erasing a fragment yields a sublist of the map. -/
theorem removeFrag_sublist (offset : Nat) (frags : List (Nat × List Nat)) :
    (removeFrag offset frags).Sublist frags := by
  induction frags with
  | nil => simp [removeFrag]
  | cons e rest ih =>
      unfold removeFrag
      by_cases he : e.1 = offset
      · simp [he]
      · rw [if_neg he]
        exact ih.cons₂ e

/-- With unique keys, the erased key is gone from the map. -/
theorem mem_removeFrag_ne {offset : Nat} {frags : List (Nat × List Nat)}
    (hnd : (frags.map Prod.fst).Nodup) {e : Nat × List Nat}
    (he : e ∈ removeFrag offset frags) : e.1 ≠ offset := by
  induction frags with
  | nil => simp [removeFrag] at he
  | cons f rest ih =>
      rw [List.map_cons, List.nodup_cons] at hnd
      unfold removeFrag at he
      by_cases hf : f.1 = offset
      · rw [if_pos hf] at he
        intro hcon
        apply hnd.1
        rw [hf, ← hcon]
        exact List.mem_map_of_mem Prod.fst he
      · rw [if_neg hf] at he
        cases List.mem_cons.mp he with
        | inl hef => exact hef ▸ hf
        | inr hmem => exact ih hnd.2 hmem

/-- Erasing a found key shrinks the map by exactly one entry. -/
theorem length_removeFrag_of_found {offset : Nat} {frags : List (Nat × List Nat)}
    (h : (findFrag offset frags).isSome) :
    (removeFrag offset frags).length + 1 = frags.length := by
  induction frags with
  | nil => simp [findFrag] at h
  | cons e rest ih =>
      unfold findFrag at h
      unfold removeFrag
      by_cases he : e.1 = offset
      · simp [he]
      · rw [if_neg he] at h ⊢
        simpa using ih h

/-- Taking more than everything is the same as taking everything. -/
theorem take_eq_take_min (l : List Nat) (n : Nat) :
    l.take n = l.take (min n l.length) := by
  rcases Nat.le_total n l.length with h | h
  · rw [Nat.min_eq_left h]
  · rw [Nat.min_eq_right h, List.take_length, List.take_of_length_le h]

/-- Two distinct multiples of d that are ordered are at least d apart. -/
theorem dvd_lt_add_le {d a b : Nat} (ha : d ∣ a) (hb : d ∣ b)
    (h : a < b) : a + d ≤ b := by
  obtain ⟨x, rfl⟩ := ha
  obtain ⟨y, rfl⟩ := hb
  have hxy : x < y := by
    by_contra hc
    push_neg at hc
    exact absurd (Nat.mul_le_mul_left d hc) (Nat.not_le.mpr h)
  calc d * x + d = d * (x + 1) := by ring
    _ ≤ d * y := Nat.mul_le_mul_left d hxy

/-- Appending the next chunk of the message to a prefix buffer yields the
longer prefix of the message, of length min(old length + maxData, total). -/
theorem append_chunk_take {msg : List Nat} {maxData : Nat} {buf : List Nat}
    (hbuf : buf = msg.take buf.length) :
    buf ++ chunk msg maxData buf.length
      = msg.take (buf.length + maxData)
    ∧ (buf ++ chunk msg maxData buf.length).length
      = min (buf.length + maxData) msg.length := by
  have h1 : buf ++ chunk msg maxData buf.length = msg.take (buf.length + maxData) := by
    rw [List.take_add, ← hbuf]
    rfl
  refine ⟨h1, ?_⟩
  rw [h1, List.length_take]

/-- Loop invariant of the coalescing phase of addPacket: starting from a
prefix buffer and a map of aligned message chunks lying at or beyond the
buffer with unique keys, the loop leaves a prefix buffer that is
packet-aligned or complete and a map of aligned chunks lying strictly
beyond it, still with unique keys. -/
theorem coalesceAux_inv (msg : List Nat) (maxData : Nat) :
    ∀ (fuel : Nat) (buf : List Nat) (frags : List (Nat × List Nat)),
    frags.length ≤ fuel →
    buf = msg.take buf.length →
    buf.length ≤ msg.length →
    (maxData ∣ buf.length ∨ buf.length = msg.length) →
    (∀ e ∈ frags, buf.length ≤ e.1 ∧ maxData ∣ e.1 ∧ e.1 < msg.length
      ∧ e.2 = chunk msg maxData e.1) →
    (frags.map Prod.fst).Nodup →
    (coalesceAux fuel buf frags).1 = msg.take (coalesceAux fuel buf frags).1.length
    ∧ (coalesceAux fuel buf frags).1.length ≤ msg.length
    ∧ (maxData ∣ (coalesceAux fuel buf frags).1.length
        ∨ (coalesceAux fuel buf frags).1.length = msg.length)
    ∧ (∀ e ∈ (coalesceAux fuel buf frags).2,
        (coalesceAux fuel buf frags).1.length < e.1 ∧ maxData ∣ e.1
        ∧ e.1 < msg.length ∧ e.2 = chunk msg maxData e.1)
    ∧ ((coalesceAux fuel buf frags).2.map Prod.fst).Nodup := by
  intro fuel
  induction fuel with
  | zero =>
      intro buf frags hfuel hbuf hlen halign hfr hnd
      have hnil : frags = [] := List.length_eq_zero.mp (Nat.le_zero.mp hfuel)
      subst hnil
      simp only [coalesceAux]
      exact ⟨hbuf, hlen, halign, by simp, by simp⟩
  | succ fuel ih =>
      intro buf frags hfuel hbuf hlen halign hfr hnd
      cases hfind : findFrag buf.length frags with
      | none =>
          simp only [coalesceAux, hfind]
          refine ⟨hbuf, hlen, halign, ?_, hnd⟩
          intro e he
          have hprops := hfr e he
          have hne := (findFrag_eq_none_iff buf.length frags).mp hfind e he
          exact ⟨lt_of_le_of_ne hprops.1 (Ne.symm hne), hprops.2.1,
            hprops.2.2.1, hprops.2.2.2⟩
      | some payload =>
          have hmem : (buf.length, payload) ∈ frags := mem_of_findFrag_eq_some hfind
          obtain ⟨hge, hdvd, hltL, hchunk⟩ := hfr _ hmem
          simp only at hdvd hltL hchunk
          simp only [coalesceAux, hfind]
          have happ := @append_chunk_take msg maxData buf hbuf
          rw [hchunk]
          apply ih
          · have := @length_removeFrag_of_found buf.length frags (by rw [hfind]; rfl)
            omega
          · rw [happ.1, List.length_take]
            exact take_eq_take_min msg _
          · rw [happ.2]
            exact Nat.min_le_right _ _
          · rw [happ.2]
            rcases Nat.le_total (buf.length + maxData) msg.length with hc | hc
            · rw [Nat.min_eq_left hc]
              exact Or.inl (Nat.dvd_add hdvd dvd_rfl)
            · rw [Nat.min_eq_right hc]
              exact Or.inr rfl
          · intro e he
            have hin : e ∈ frags := (removeFrag_sublist buf.length frags).subset he
            have hprops := hfr e hin
            have hne := mem_removeFrag_ne hnd he
            have hgt : buf.length < e.1 := lt_of_le_of_ne hprops.1 (Ne.symm hne)
            have hstep : buf.length + maxData ≤ e.1 :=
              dvd_lt_add_le hdvd hprops.2.1 hgt
            refine ⟨?_, hprops.2.1, hprops.2.2.1, hprops.2.2.2⟩
            rw [happ.2]
            exact le_trans (Nat.min_le_left _ _) hstep
          · exact List.Nodup.sublist
              ((removeFrag_sublist buf.length frags).map Prod.fst) hnd

/-- addPacket preserves the reassembly invariant when fed a conforming
DATA packet. -/
theorem addPacket_preserves_accInv {msg : List Nat} {maxData : Nat}
    {offset : Nat} {payload : List Nat} {a : Accumulator}
    (ha : accInv msg maxData a)
    (hpkt : conformingPacket msg maxData offset payload) :
    accInv msg maxData (addPacket offset payload a) := by
  obtain ⟨hbuf, hlen, halign, hfr, hnd⟩ := ha
  obtain ⟨hdvd, hofflt, hpl⟩ := hpkt
  unfold addPacket
  by_cases h1 : offset < a.buffer.length
  · rw [if_pos h1]
    exact ⟨hbuf, hlen, halign, hfr, hnd⟩
  · rw [if_neg h1]
    by_cases h2 : offset = a.buffer.length
    · rw [if_pos h2]
      subst h2
      rw [hpl]
      have happ := @append_chunk_take msg maxData a.buffer hbuf
      have hpre1 : a.buffer ++ chunk msg maxData a.buffer.length
          = msg.take (a.buffer ++ chunk msg maxData a.buffer.length).length := by
        rw [happ.1, List.length_take]
        exact take_eq_take_min msg _
      have hpre2 : (a.buffer ++ chunk msg maxData a.buffer.length).length
          ≤ msg.length := by
        rw [happ.2]
        exact Nat.min_le_right _ _
      have hpre3 : maxData ∣ (a.buffer ++ chunk msg maxData a.buffer.length).length
          ∨ (a.buffer ++ chunk msg maxData a.buffer.length).length = msg.length := by
        rw [happ.2]
        rcases Nat.le_total (a.buffer.length + maxData) msg.length with hc | hc
        · rw [Nat.min_eq_left hc]
          exact Or.inl (Nat.dvd_add hdvd dvd_rfl)
        · rw [Nat.min_eq_right hc]
          exact Or.inr rfl
      have hpre4 : ∀ e ∈ a.fragments,
          (a.buffer ++ chunk msg maxData a.buffer.length).length ≤ e.1
          ∧ maxData ∣ e.1 ∧ e.1 < msg.length ∧ e.2 = chunk msg maxData e.1 := by
        intro e he
        have hprops := hfr e he
        have hstep : a.buffer.length + maxData ≤ e.1 :=
          dvd_lt_add_le hdvd hprops.2.1 hprops.1
        refine ⟨?_, hprops.2.1, hprops.2.2.1, hprops.2.2.2⟩
        rw [happ.2]
        exact le_trans (Nat.min_le_left _ _) hstep
      have H := coalesceAux_inv msg maxData a.fragments.length
        (a.buffer ++ chunk msg maxData a.buffer.length) a.fragments
        (Nat.le_refl _) hpre1 hpre2 hpre3 hpre4 hnd
      exact ⟨H.1, H.2.1, H.2.2.1, H.2.2.2.1, H.2.2.2.2⟩
    · rw [if_neg h2]
      by_cases h3 : (findFrag offset a.fragments).isSome = true
      · rw [if_pos h3]
        exact ⟨hbuf, hlen, halign, hfr, hnd⟩
      · rw [if_neg h3]
        have hnone : findFrag offset a.fragments = none :=
          Option.not_isSome_iff_eq_none.mp h3
        refine ⟨hbuf, hlen, halign, ?_, ?_⟩
        · intro e he
          cases List.mem_cons.mp he with
          | inl heq =>
              subst heq
              refine ⟨?_, hdvd, hofflt, hpl⟩
              show a.buffer.length < offset
              omega
          | inr hmem => exact hfr e hmem
        · rw [List.map_cons, List.nodup_cons]
          refine ⟨?_, hnd⟩
          intro hc
          obtain ⟨e, hme, he1⟩ := List.mem_map.mp hc
          exact (findFrag_eq_none_iff offset a.fragments).mp hnone e hme he1

/-- In any accumulator satisfying the reassembly invariant, no two stored
fragments overlap. -/
theorem accInv_fragmentsDisjoint {msg : List Nat} {maxData : Nat}
    {a : Accumulator} (ha : accInv msg maxData a) :
    fragmentsDisjoint a.fragments := by
  obtain ⟨_, _, _, hfr, hnd⟩ := ha
  unfold fragmentsDisjoint
  have hpw : a.fragments.Pairwise (fun e1 e2 => e1.1 ≠ e2.1) :=
    List.pairwise_map.mp hnd
  refine hpw.imp_of_mem ?_
  intro e1 e2 h1 h2 hne
  obtain ⟨_, hd1, _, hc1⟩ := hfr e1 h1
  obtain ⟨_, hd2, _, hc2⟩ := hfr e2 h2
  have hlen1 : e1.2.length ≤ maxData := by
    rw [hc1]
    unfold chunk
    rw [List.length_take]
    exact Nat.min_le_left _ _
  have hlen2 : e2.2.length ≤ maxData := by
    rw [hc2]
    unfold chunk
    rw [List.length_take]
    exact Nat.min_le_left _ _
  rcases Nat.lt_or_ge e1.1 e2.1 with h | h
  · have := dvd_lt_add_le hd1 hd2 h
    left
    omega
  · have hlt : e2.1 < e1.1 := lt_of_le_of_ne h (fun hcc => hne hcc.symm)
    have := dvd_lt_add_le hd2 hd1 hlt
    right
    omega

/-- C4: after every addPacket call with a conforming DATA packet on an
accumulator satisfying the reassembly invariant (which the empty
accumulator does), the buffer holds exactly the received prefix
[0, buffer.size()) of the message, every key in the fragments map is at
least buffer.size(), keys are unique, and no two stored fragments
overlap. -/
theorem messageAccumulator_reassembly_invariant
    (msg : List Nat) (maxData offset : Nat) (payload : List Nat)
    (a : Accumulator) (ha : accInv msg maxData a)
    (hpkt : conformingPacket msg maxData offset payload) :
    accInv msg maxData emptyAccumulator
    ∧ accInv msg maxData (addPacket offset payload a)
    ∧ (addPacket offset payload a).buffer
        = msg.take (addPacket offset payload a).buffer.length
    ∧ (∀ e ∈ (addPacket offset payload a).fragments,
        (addPacket offset payload a).buffer.length ≤ e.1)
    ∧ ((addPacket offset payload a).fragments.map Prod.fst).Nodup
    ∧ fragmentsDisjoint (addPacket offset payload a).fragments := by
  have hinv := addPacket_preserves_accInv ha hpkt
  refine ⟨?_, hinv, hinv.1, ?_, hinv.2.2.2.2, accInv_fragmentsDisjoint hinv⟩
  · exact ⟨rfl, Nat.zero_le _, Or.inl (dvd_zero _), by simp [emptyAccumulator],
      by simp [emptyAccumulator]⟩
  · intro e he
    exact Nat.le_of_lt (hinv.2.2.2.1 e he).1

/-- Closed instance of `messageAccumulator_reassembly_invariant`: the
second chunk of a five-byte message (chunk size 2) arrives out of order at
an empty accumulator and is stored as a fragment. -/
theorem messageAccumulator_reassembly_invariant_witness :
    accInv [10, 20, 30, 40, 50] 2 (addPacket 2 [30, 40] emptyAccumulator) := by
  have h := messageAccumulator_reassembly_invariant [10, 20, 30, 40, 50] 2 2
    [30, 40] emptyAccumulator (by decide) (by decide)
  exact h.2.1

/-- C5: a duplicate DATA packet — one whose offset is below buffer.size()
or whose offset is already a key of the fragments map — leaves the
accumulator exactly as it was: nothing is retained from the packet (it is
released back to the driver). -/
theorem addPacket_duplicate_is_noop (msg : List Nat) (maxData offset : Nat)
    (payload : List Nat) (a : Accumulator) (ha : accInv msg maxData a)
    (hdup : offset < a.buffer.length ∨ (findFrag offset a.fragments).isSome = true) :
    addPacket offset payload a = a := by
  unfold addPacket
  by_cases h1 : offset < a.buffer.length
  · rw [if_pos h1]
  · rw [if_neg h1]
    have hsome : (findFrag offset a.fragments).isSome = true :=
      hdup.resolve_left h1
    by_cases h2 : offset = a.buffer.length
    · exfalso
      obtain ⟨pl, hpl⟩ := Option.isSome_iff_exists.mp hsome
      have hmem := mem_of_findFrag_eq_some hpl
      have hgt := (ha.2.2.2.1 _ hmem).1
      simp only at hgt
      omega
    · rw [if_neg h2, if_pos hsome]

/-- Closed instance of `addPacket_duplicate_is_noop`: redelivering an
out-of-order chunk that is already stored as a fragment changes nothing. -/
theorem addPacket_duplicate_is_noop_witness :
    addPacket 2 [30, 40] { buffer := [], fragments := [(2, [30, 40])] }
      = { buffer := [], fragments := [(2, [30, 40])] } := by
  exact addPacket_duplicate_is_noop [10, 20, 30, 40, 50] 2 2 [30, 40]
    { buffer := [], fragments := [(2, [30, 40])] } (by decide) (by decide)

/-- C10: a coordinator list whose version_number is at most the
ServerList's current version is ignored: applyServerList returns with the
entire state — server list entries, version and every registered
tracker — unchanged, whatever the list's type and contents are. -/
theorem applyServerList_stale_is_noop (fuel : Nat) (list : CoordServerList)
    (st : ServerListState) (h : list.version_number ≤ st.version) :
    applyServerList fuel list st = some st := by
  unfold applyServerList
  rw [if_pos h]

/-- Closed instance of `applyServerList_stale_is_noop`: a repeated
coordinator update (same version) against a populated list with a
registered tracker is a no-op. -/
theorem applyServerList_stale_is_noop_witness :
    applyServerList 16
      { version_number := 3, type := .update,
        server := [ { server_id := { indexNumber := 1, generationNumber := 7 },
                      service_locator := "x", services := 1,
                      expected_read_mbytes_per_sec := 0, status := .up } ] }
      { serverList := [some { serverId := { indexNumber := 0, generationNumber := 1 },
                              serviceLocator := "y", services := 2,
                              expectedReadMBytesPerSec := 9, status := .up }],
        version := 3, trackers := [{ events := [], fires := 0 }] }
      = some { serverList := [some { serverId := { indexNumber := 0, generationNumber := 1 },
                                     serviceLocator := "y", services := 2,
                                     expectedReadMBytesPerSec := 9, status := .up }],
               version := 3, trackers := [{ events := [], fires := 0 }] } := by
  exact applyServerList_stale_is_noop 16
    { version_number := 3, type := .update,
      server := [ { server_id := { indexNumber := 1, generationNumber := 7 },
                    service_locator := "x", services := 1,
                    expected_read_mbytes_per_sec := 0, status := .up } ] }
    { serverList := [some { serverId := { indexNumber := 0, generationNumber := 1 },
                            serviceLocator := "y", services := 2,
                            expectedReadMBytesPerSec := 9, status := .up }],
      version := 3, trackers := [{ events := [], fires := 0 }] }
    (by decide)

/-- Closed instance of `activeMessages_bounded_by_overcommitment` at a
concrete scheduler state at its overcommitment limit. -/
theorem activeMessages_bounded_by_overcommitment_witness :
    (tryToSchedule
        { senderHash := 7, bytesRemaining := 100, rpcId := { clientId := 3, sequence := 1 } }
        { activeMessages :=
            [ { senderHash := 1, bytesRemaining := 500, rpcId := { clientId := 1, sequence := 1 } },
              { senderHash := 2, bytesRemaining := 900, rpcId := { clientId := 2, sequence := 1 } } ],
          inactiveMessages := [],
          maxGrantedMessages := 2 }).activeMessages.length ≤ 2 := by
  have h := activeMessages_bounded_by_overcommitment
    { senderHash := 7, bytesRemaining := 100, rpcId := { clientId := 3, sequence := 1 } }
    { senderHash := 1, bytesRemaining := 500, rpcId := { clientId := 1, sequence := 1 } }
    { senderHash := 7, bytesRemaining := 100, rpcId := { clientId := 3, sequence := 1 } }
    { activeMessages :=
        [ { senderHash := 1, bytesRemaining := 500, rpcId := { clientId := 1, sequence := 1 } },
          { senderHash := 2, bytesRemaining := 900, rpcId := { clientId := 2, sequence := 1 } } ],
      inactiveMessages := [],
      maxGrantedMessages := 2 }
    (by decide) (by decide)
  exact h.1

end RAMCloud
